import Mathlib

/-!
Verification development for the DataPilot dashboard (`src/app.py`).

The program is a Streamlit page: per-session state holds `raw_df` (the
original table), `df` (the working table), `current_file` (the identity of
the active upload) and `visual_config` (the list of configured charts).
We embed the table data model, the cleaning operations, the upload
handler, the KPI computations, the CSV export and the chart dispatch as
pure Lean functions, and prove the stated properties about them.

Tables are embedded row-wise: a header of column names, a mask recording
which columns have a numeric dtype (pandas infers this at load time;
`select_dtypes(include=["number"])` reads it back), and a list of rows of
cells.  A cell is a number, a text value, or a missing value (NaN/None).
-/

/-- A cell of a table: a numeric value, a text value, or a missing value
(pandas NaN / None).  Numbers are embedded as rationals. -/
inductive Value : Type
  | num (q : ℚ)
  | str (s : String)
  | na
deriving DecidableEq, Repr

/-- A table: ordered named columns over ordered rows.  `numericMask`
records, per column, whether pandas inferred a numeric dtype for it
(`select_dtypes(include=["number"])` selects exactly those columns). -/
structure Table : Type where
  header : List String
  numericMask : List Bool
  rows : List (List Value)
deriving DecidableEq, Repr

/-- Well-formedness of the embedding: the mask covers the header and the
table is rectangular (every row has one cell per column).  A dataframe
produced by `read_csv` / `read_excel` always satisfies this. -/
def Table.WF (t : Table) : Prop :=
  t.numericMask.length = t.header.length ∧ ∀ r ∈ t.rows, r.length = t.header.length

instance (t : Table) : Decidable t.WF := by
  unfold Table.WF; infer_instance

/-! ## Drop duplicates (`df.drop_duplicates()`, app.py line 167)

Modelled from the pandas contract with default arguments: a row is kept
iff it is not equal (in every column) to some earlier row; kept rows stay
in their original relative order.  `go` carries the set of rows already
seen as an accumulator. -/

/-- Worker for `dropDupRows`: `seen` is the list of rows already
processed; a row is dropped iff it occurs among them. -/
def dropDupGo (seen : List (List Value)) : List (List Value) → List (List Value)
  | [] => []
  | r :: rs => if r ∈ seen then dropDupGo (r :: seen) rs else r :: dropDupGo (r :: seen) rs

/-- Row-list semantics of `df.drop_duplicates()`: remove every row that
duplicates an earlier one, keeping first occurrences in order. -/
def dropDupRows (l : List (List Value)) : List (List Value) :=
  dropDupGo [] l

/-- Table-level `df.drop_duplicates()` (app.py line 167): deduplicate the
rows, leave header and dtypes unchanged. -/
def dropDuplicatesT (t : Table) : Table :=
  { t with rows := dropDupRows t.rows }

/-! ## KPI counts (app.py lines 153-157 and 268-272)

`df.duplicated().sum()` counts the rows flagged as duplicates of an
earlier row; `df.isnull().sum().sum()` counts the missing cells. -/

/-- Worker for `duplicatedSum`: count rows equal to a member of `seen` or
to an earlier row. -/
def dupCountGo (seen : List (List Value)) : List (List Value) → Nat
  | [] => 0
  | r :: rs => (if r ∈ seen then 1 else 0) + dupCountGo (r :: seen) rs

/-- KPI `df.duplicated().sum()`: the number of rows that are exact
duplicates of an earlier row. -/
def duplicatedSum (t : Table) : Nat :=
  dupCountGo [] t.rows

/-- KPI `df.isnull().sum().sum()`: the total number of missing cells. -/
def missingSum (t : Table) : Nat :=
  (t.rows.map (fun r => r.countP (fun v => v = Value.na))).sum

/-! ## Fill-missing strategies (app.py lines 170-180)

`numeric_cols = df.select_dtypes(include=["number"]).columns` selects the
numeric-dtype columns; the button then runs one of
`df[numeric_cols].fillna(df[numeric_cols].mean())`,
`df[numeric_cols].fillna(df[numeric_cols].median())`, or
`df[numeric_cols].fillna(0)` and assigns the result back to those
columns.  A pandas `mean()`/`median()` of an all-missing column is NaN,
and `fillna` leaves cells unfilled where the fill value is NaN; `none`
models that NaN fill value below. -/

/-- The numeric (non-missing) entries of a column, in order. -/
def nonMissingNums (vs : List Value) : List ℚ :=
  vs.filterMap fun v => match v with | .num q => some q | _ => none

/-- pandas `Series.mean()` with default `skipna`: arithmetic mean of the
non-missing values, NaN (`none`) when there are none. -/
def meanOf (vs : List Value) : Option ℚ :=
  let ns := nonMissingNums vs
  if ns.length = 0 then none else some (ns.sum / ns.length)

/-- pandas `Series.median()` with default `skipna`: middle element of the
sorted non-missing values for odd length, average of the two middle
elements for even length, NaN (`none`) when there are none. -/
def medianOf (vs : List Value) : Option ℚ :=
  let ns := (nonMissingNums vs).mergeSort (fun a b => a ≤ b)
  if ns.length = 0 then none
  else if ns.length % 2 = 1 then some (ns.getD (ns.length / 2) 0)
  else some ((ns.getD (ns.length / 2 - 1) 0 + ns.getD (ns.length / 2) 0) / 2)

/-- The three fill strategies of the selectbox (app.py line 171). -/
inductive FillStrat : Type
  | mean
  | median
  | zero
deriving DecidableEq, Repr

/-- The fill value used for one numeric column: the column's mean, its
median, or the constant 0. -/
def fillValS : FillStrat → List Value → Option ℚ
  | .mean, vs => meanOf vs
  | .median, vs => medianOf vs
  | .zero, _ => some 0

/-- Column `j` of a table as the list of its cells (missing when a row is
too short, which a well-formed table excludes). -/
def colOf (t : Table) (j : Nat) : List Value :=
  t.rows.map fun r => r.getD j Value.na

/-- Per-column fill values for one press of "Apply Fill Strategy":
numeric-dtype columns get the strategy's fill value, all other columns
get NaN (`none`), i.e. are untouched. -/
def fillVals (S : FillStrat) (t : Table) : List (Option ℚ) :=
  (List.range t.header.length).map fun j =>
    if t.numericMask.getD j false then fillValS S (colOf t j) else none

/-- Cell-level `fillna`: replace a missing cell by the fill value when
that value is not NaN; leave every other cell alone. -/
def fillCell (fv : Option ℚ) : Value → Value
  | .na => match fv with | some q => .num q | none => .na
  | .num q => .num q
  | .str s => .str s

/-- The "Apply Fill Strategy" button (app.py lines 173-180): fill the
missing cells of every numeric-dtype column with the strategy's fill
value; header, dtypes and non-numeric columns are unchanged. -/
def applyFill (S : FillStrat) (t : Table) : Table :=
  { t with rows := t.rows.map fun r => List.zipWith fillCell (fillVals S t) r }

/-! ## CSV export (app.py lines 81-84 and 192-199) -/

/-- Text rendering of one cell for CSV output: a missing cell serializes
to the empty field, text verbatim, and numbers by their canonical
decimal/rational rendering (the exact digit formatting is the CSV
writer's concern and is abstracted by `toString`). -/
def cellStr : Value → String
  | .num q => toString q
  | .str s => s
  | .na => ""

/-- Quoting rule of the CSV writer: a field containing a comma, a double
quote or a line break is wrapped in double quotes, inner quotes doubled. -/
def needsQuoting (s : String) : Bool :=
  s.data.any fun c => c = ',' ∨ c = '"' ∨ c = '\n' ∨ c = '\r'

/-- Quote one CSV field when needed. -/
def quoteField (s : String) : String :=
  if needsQuoting s then "\"" ++ s.replace "\"" "\"\"" ++ "\"" else s

/-- One CSV record: its fields, quoted as needed, joined by commas. -/
def csvLine (fields : List String) : String :=
  String.intercalate "," (fields.map quoteField)

/-- pandas `df.to_csv(index=False)`: the header record followed by one
record per row, records separated by line feeds, with a trailing line
feed. -/
def to_csv (t : Table) : String :=
  String.intercalate "\n"
    (csvLine t.header :: t.rows.map fun r => csvLine (r.map cellStr)) ++ "\n"

/-- Helper `convert_df_to_csv` (app.py lines 81-84):
`df.to_csv(index=False).encode('utf-8')`, the UTF-8 bytes of the CSV
text.  (`st.cache_data` memoizes on the dataframe value, so caching does
not change the result.) -/
def convert_df_to_csv (t : Table) : List UInt8 :=
  (to_csv t).toUTF8.toList

/-- Python's `s.split('.')`: the maximal dot-free pieces of the string,
empty pieces included. -/
def splitOnDot (s : String) : List String :=
  (s.data.splitOn '.').map String.mk

/-- The offered download file name (app.py line 196):
`"cleaned_" + current_file.split('.')[0] + ".csv"`, i.e. the part of the
source identity before its first dot. -/
def downloadFileName (current_file : String) : String :=
  "cleaned_" ++ (splitOnDot current_file).headD "" ++ ".csv"

/-- Modelled from the spec ("the original (extension-stripped) source
identity"): the identity with the suffix starting at its last dot
removed. -/
def stripLastExt (s : String) : String :=
  let parts := splitOnDot s
  if parts.length ≤ 1 then s else String.intercalate "." parts.dropLast

/-- Modelled from the spec: the download name the spec's words describe,
the fixed prefix combined with the extension-stripped identity. -/
def specDownloadFileName (current_file : String) : String :=
  "cleaned_" ++ stripLastExt current_file ++ ".csv"

/-! ## Chart dispatch (app.py lines 215, 219-253 and 280-313) -/

/-- The chart kinds offered by the visual builder (app.py line 215). -/
inductive ChartType : Type
  | histogram
  | bar
  | pie
  | line
  | scatter
  | boxplot
deriving DecidableEq, Repr

/-- Column names of numeric dtype:
`df.select_dtypes(include=["number"]).columns`. -/
def numericColNames (t : Table) : List String :=
  (t.header.zip t.numericMask).filterMap fun p => if p.2 then some p.1 else none

/-- Index of a named column, as `df[column]` resolves it. -/
def colIdx (t : Table) (c : String) : Nat :=
  t.header.indexOf c

/-- The cells of the named column (`df[column]`). -/
def colByName (t : Table) (c : String) : List Value :=
  colOf t (colIdx t c)

/-- Distinct values in first-appearance order (worker for
`valueCounts`). -/
def distinctsGo (seen : List Value) : List Value → List Value
  | [] => []
  | v :: vs => if v ∈ seen then distinctsGo (v :: seen) vs
               else v :: distinctsGo (v :: seen) vs

/-- pandas `Series.value_counts()`: each distinct non-missing value with
its multiplicity, most frequent first. -/
def valueCounts (vs : List Value) : List (Value × Nat) :=
  let present := vs.filter fun v => v ≠ Value.na
  ((distinctsGo [] present).map fun v => (v, present.count v)).mergeSort
    (fun a b => b.2 ≤ a.2)

/-- Outcome of one chart slot on the Visualize page. -/
inductive PreviewOutcome : Type
  | numChart (k : ChartType) (data : List ℚ)
  | freqChart (k : ChartType) (counts : List (Value × Nat))
  | placeholderMsg
deriving DecidableEq, Repr

/-- Chart dispatch of the Visualize page (app.py lines 231-247): the
numeric chart kinds render only against a numeric-dtype column, using the
column's non-missing values; Bar and Pie render value frequencies of any
column; every remaining combination writes the "Select a numeric column
for this chart type." note over an empty figure and computes nothing. -/
def previewDispatch (t : Table) (chart : ChartType) (column : String) :
    PreviewOutcome :=
  if chart = ChartType.histogram ∧ column ∈ numericColNames t then
    PreviewOutcome.numChart ChartType.histogram (nonMissingNums (colByName t column))
  else if chart = ChartType.bar then
    PreviewOutcome.freqChart ChartType.bar ((valueCounts (colByName t column)).take 8)
  else if chart = ChartType.pie then
    PreviewOutcome.freqChart ChartType.pie ((valueCounts (colByName t column)).take 5)
  else if chart = ChartType.line ∧ column ∈ numericColNames t then
    PreviewOutcome.numChart ChartType.line (nonMissingNums (colByName t column))
  else if chart = ChartType.scatter ∧ column ∈ numericColNames t then
    PreviewOutcome.numChart ChartType.scatter (nonMissingNums (colByName t column))
  else if chart = ChartType.boxplot ∧ column ∈ numericColNames t then
    PreviewOutcome.numChart ChartType.boxplot (nonMissingNums (colByName t column))
  else PreviewOutcome.placeholderMsg

/-- Outcome of one chart slot on the Final Report page. -/
inductive ReportOutcome : Type
  | numChart (k : ChartType) (data : List ℚ)
  | freqChart (k : ChartType) (counts : List (Value × Nat))
  | emptyFig
deriving DecidableEq, Repr

/-- Chart dispatch of the Final Report page (app.py lines 291-313): the
same applicability chain as the Visualize page, but with no `else`
branch — an inapplicable combination renders the bare empty figure (a
placeholder), again computing nothing. -/
def reportDispatch (t : Table) (chart : ChartType) (column : String) :
    ReportOutcome :=
  if chart = ChartType.histogram ∧ column ∈ numericColNames t then
    ReportOutcome.numChart ChartType.histogram (nonMissingNums (colByName t column))
  else if chart = ChartType.bar then
    ReportOutcome.freqChart ChartType.bar ((valueCounts (colByName t column)).take 8)
  else if chart = ChartType.pie then
    ReportOutcome.freqChart ChartType.pie ((valueCounts (colByName t column)).take 5)
  else if chart = ChartType.line ∧ column ∈ numericColNames t then
    ReportOutcome.numChart ChartType.line (nonMissingNums (colByName t column))
  else if chart = ChartType.scatter ∧ column ∈ numericColNames t then
    ReportOutcome.numChart ChartType.scatter (nonMissingNums (colByName t column))
  else if chart = ChartType.boxplot ∧ column ∈ numericColNames t then
    ReportOutcome.numChart ChartType.boxplot (nonMissingNums (colByName t column))
  else ReportOutcome.emptyFig

/-- The Final Report renders every configured chart in order (app.py
lines 283-313); a failing slot shows its own error and the loop
continues. -/
def renderReportCharts (t : Table) (cfg : List (ChartType × String)) :
    List ReportOutcome :=
  cfg.map fun p => reportDispatch t p.1 p.2

/-! ## Session state and the event step (app.py lines 89-96, 119-141,
163-199, 217-227) -/

/-- The per-session mutable state (app.py lines 89-96). -/
structure SessionState : Type where
  raw_df : Option Table
  df : Option Table
  current_file : Option String
  visual_config : List (ChartType × String)
deriving DecidableEq, Repr

/-- The state before any interaction (app.py lines 89-96). -/
def initialState : SessionState :=
  { raw_df := none, df := none, current_file := none, visual_config := [] }

/-- Result of one parse attempt of the uploaded byte stream: `read_csv`
can succeed, raise `UnicodeDecodeError`, or raise some other exception. -/
inductive ParseOutcome : Type
  | ok (t : Table)
  | unicodeError
  | otherError
deriving DecidableEq, Repr

/-- CSV parsing with encoding fallback (app.py lines 122-127): attempt
UTF-8; on `UnicodeDecodeError` retry as Latin-1; any other failure, or a
failure of the retry, escapes to the surrounding handler as `none`. -/
def parseCSV (utf8 latin1 : ParseOutcome) : Option Table :=
  match utf8 with
  | .ok t => some t
  | .unicodeError => match latin1 with | .ok t => some t | _ => none
  | .otherError => none

/-- The message the upload handler leaves in the sidebar. -/
inductive SidebarMsg : Type
  | loadedOk
  | loadFailed
deriving DecidableEq, Repr

/-- The sidebar upload handler (app.py lines 119-138): an upload named
like the active file is ignored; otherwise a successful parse replaces
both tables with copies of the parsed table, records the new name, clears
`visual_config` and reports success, while a failed parse reports the
error and leaves every state field at its prior value. -/
def handleUpload (s : SessionState) (name : String) (parsed : Option Table) :
    SessionState × Option SidebarMsg :=
  if s.current_file = some name then (s, none)
  else
    match parsed with
    | some t =>
        ({ raw_df := some t, df := some t, current_file := some name,
           visual_config := [] }, some SidebarMsg.loadedOk)
    | none => (s, some SidebarMsg.loadFailed)

/-- One user interaction. -/
inductive Event : Type
  | upload (name : String) (parsed : Option Table)
  | dropDupsClick
  | fillClick (S : FillStrat)
  | resetClick
  | setVisuals (cfg : List (ChartType × String))
deriving DecidableEq, Repr

/-- One interaction applied to the session state: the upload handler
(app.py lines 119-138); the cleaning buttons (lines 166-186) and the
visual-builder rebuild of `visual_config` (lines 217-227), all of which
are rendered only when a table is loaded and hence are no-ops otherwise. -/
def step (s : SessionState) : Event → SessionState
  | .upload name parsed => (handleUpload s name parsed).1
  | .dropDupsClick =>
      match s.df with
      | some t => { s with df := some (dropDuplicatesT t) }
      | none => s
  | .fillClick S =>
      match s.df with
      | some t => { s with df := some (applyFill S t) }
      | none => s
  | .resetClick =>
      match s.df with
      | some _ => { s with df := s.raw_df }
      | none => s
  | .setVisuals cfg =>
      match s.df with
      | some _ => { s with visual_config := cfg }
      | none => s

/-- A sequence of interactions. -/
def runEvents (s : SessionState) (evs : List Event) : SessionState :=
  evs.foldl step s

/-- Whether an event is the two table-cleaning buttons. -/
def Event.isCleaningOp : Event → Bool
  | .dropDupsClick => true
  | .fillClick _ => true
  | _ => false

/-- Whether an event is a file upload. -/
def Event.isUploadEv : Event → Bool
  | .upload _ _ => true
  | _ => false

/-- The records of the exported CSV: the header record followed by one
record per row of the working table (the list `to_csv` joins with line
feeds). -/
def csvRecords (t : Table) : List String :=
  csvLine t.header :: t.rows.map fun r => csvLine (r.map cellStr)

/-! ## Concrete instances used to exercise the theorems -/

/-- The spec's running example table: columns `x` (numeric dtype) and
`y` (text), rows `(1,"a"), (1,"a"), (2,"b"), (missing,"c")`. -/
def exTable : Table :=
  { header := ["x", "y"],
    numericMask := [true, false],
    rows := [[Value.num 1, Value.str "a"], [Value.num 1, Value.str "a"],
             [Value.num 2, Value.str "b"], [Value.na, Value.str "c"]] }

/-- A table with a partly missing numeric column, an all-missing numeric
column and a text column, exercising the fill edge cases. -/
def fillExTable : Table :=
  { header := ["x", "z", "y"],
    numericMask := [true, true, false],
    rows := [[Value.num 1, Value.na, Value.str "a"],
             [Value.na, Value.na, Value.str "b"]] }

/-- A session state with the example table loaded from "data.csv". -/
def loadedState : SessionState :=
  { raw_df := some exTable, df := some exTable,
    current_file := some "data.csv", visual_config := [] }

/-! ## Theorems -/

/-! ### Lemmas about deduplication -/

theorem dropDupGo_sublist (seen : List (List Value)) (l : List (List Value)) :
    (dropDupGo seen l).Sublist l := by
  induction l generalizing seen with
  | nil => simp [dropDupGo]
  | cons r rs ih =>
    by_cases h : r ∈ seen
    · simp only [dropDupGo, if_pos h]
      exact (ih (r :: seen)).trans (List.sublist_cons_self r rs)
    · simp only [dropDupGo, if_neg h]
      exact (ih (r :: seen)).cons₂ r

theorem mem_dropDupGo (seen : List (List Value)) (l : List (List Value))
    (x : List Value) : x ∈ dropDupGo seen l ↔ x ∈ l ∧ x ∉ seen := by
  induction l generalizing seen with
  | nil => simp [dropDupGo]
  | cons r rs ih =>
    by_cases h : r ∈ seen
    · simp only [dropDupGo, if_pos h, ih, List.mem_cons]
      constructor
      · rintro ⟨hx, hs⟩
        refine ⟨Or.inr hx, fun hc => hs (Or.inr hc)⟩
      · rintro ⟨hx | hx, hs⟩
        · subst hx; exact absurd h hs
        · refine ⟨hx, ?_⟩
          simp only [List.mem_cons, not_or]
          exact ⟨fun hc => hs (hc ▸ h), hs⟩
    · simp only [dropDupGo, if_neg h, List.mem_cons, ih]
      constructor
      · rintro (rfl | ⟨hx, hs⟩)
        · exact ⟨Or.inl rfl, h⟩
        · refine ⟨Or.inr hx, fun hc => hs (Or.inr hc)⟩
      · rintro ⟨rfl | hx, hs⟩
        · exact Or.inl rfl
        · by_cases hxr : x = r
          · exact Or.inl hxr
          · exact Or.inr ⟨hx, by simp [List.mem_cons, hxr, hs]⟩

theorem dropDupGo_nodup (seen : List (List Value)) (l : List (List Value)) :
    (dropDupGo seen l).Nodup := by
  induction l generalizing seen with
  | nil => simp [dropDupGo]
  | cons r rs ih =>
    by_cases h : r ∈ seen
    · simpa [dropDupGo, if_pos h] using ih (r :: seen)
    · simp only [dropDupGo, if_neg h, List.nodup_cons]
      refine ⟨fun hc => ?_, ih (r :: seen)⟩
      exact ((mem_dropDupGo _ _ _).1 hc).2 (List.mem_cons_self r seen)

theorem dropDupGo_of_nodup (seen : List (List Value)) (l : List (List Value))
    (hd : l.Nodup) (hs : ∀ x ∈ l, x ∉ seen) : dropDupGo seen l = l := by
  induction l generalizing seen with
  | nil => rfl
  | cons r rs ih =>
    have hr : r ∉ seen := hs r (List.mem_cons_self r rs)
    simp only [dropDupGo, if_neg hr]
    rw [ih (r :: seen) (List.nodup_cons.1 hd).2]
    intro x hx
    simp only [List.mem_cons]
    rintro (rfl | hxs)
    · exact (List.nodup_cons.1 hd).1 hx
    · exact hs x (List.mem_cons_of_mem _ hx) hxs

theorem dropDupRows_idem (l : List (List Value)) :
    dropDupRows (dropDupRows l) = dropDupRows l := by
  refine dropDupGo_of_nodup [] _ (dropDupGo_nodup [] l) ?_
  intro x _; simp

theorem dropDupGo_append_singleton (seen l : List (List Value)) (r : List Value) :
    dropDupGo seen (l ++ [r]) =
      if r ∈ seen ∨ r ∈ l then dropDupGo seen l else dropDupGo seen l ++ [r] := by
  induction l generalizing seen with
  | nil =>
    by_cases h : r ∈ seen <;> simp [dropDupGo, h]
  | cons a as ih =>
    by_cases hra : r = a
    · subst hra
      by_cases ha : r ∈ seen <;>
        simp [List.cons_append, dropDupGo, ha, ih (r :: seen), List.mem_cons]
    · by_cases ha : a ∈ seen <;>
        by_cases hr : r ∈ seen <;>
          by_cases hrl : r ∈ as <;>
            simp [List.cons_append, dropDupGo, ha, hr, hra, hrl, ih (a :: seen)]

/-- Appending a row that duplicates an earlier row leaves the
deduplicated table unchanged; appending a fresh row appends it. -/
theorem dropDupRows_snoc (l : List (List Value)) (r : List Value) :
    dropDupRows (l ++ [r]) =
      if r ∈ l then dropDupRows l else dropDupRows l ++ [r] := by
  simpa [dropDupRows] using dropDupGo_append_singleton [] l r

theorem dupCountGo_add_length (seen : List (List Value)) (l : List (List Value)) :
    dupCountGo seen l + (dropDupGo seen l).length = l.length := by
  induction l generalizing seen with
  | nil => simp [dupCountGo, dropDupGo]
  | cons r rs ih =>
    have := ih (r :: seen)
    by_cases h : r ∈ seen
    · simp only [dupCountGo, dropDupGo, if_pos h, List.length_cons]
      omega
    · simp only [dupCountGo, dropDupGo, if_neg h, List.length_cons]
      omega

theorem duplicatedSum_eq (t : Table) :
    duplicatedSum t = t.rows.length - (dropDuplicatesT t).rows.length := by
  have h := dupCountGo_add_length [] t.rows
  simp only [duplicatedSum, dropDuplicatesT, dropDupRows]
  omega

theorem fillCell_none (v : Value) : fillCell none v = v := by
  cases v <;> rfl

theorem fillCell_some_fillCell (fv : Option ℚ) (q : ℚ) (v : Value) :
    fillCell fv (fillCell (some q) v) = fillCell (some q) v := by
  cases v <;> rfl

theorem fillCell_ne_na (q : ℚ) (v : Value) : fillCell (some q) v ≠ Value.na := by
  cases v <;> simp [fillCell]

theorem length_fillVals (S : FillStrat) (t : Table) :
    (fillVals S t).length = t.header.length := by
  simp [fillVals]

theorem fillVals_getD (S : FillStrat) (t : Table) (j : Nat)
    (hj : j < t.header.length) :
    (fillVals S t).getD j none =
      if t.numericMask.getD j false then fillValS S (colOf t j) else none := by
  have hlen : j < (fillVals S t).length := by simpa [length_fillVals] using hj
  rw [List.getD_eq_getElem _ _ hlen]
  simp [fillVals, hj]

theorem getD_zipWith_fillCell (fvs : List (Option ℚ)) (r : List Value)
    (j : Nat) (hf : j < fvs.length) (hr : j < r.length) :
    (List.zipWith fillCell fvs r).getD j Value.na =
      fillCell (fvs.getD j none) (r.getD j Value.na) := by
  induction fvs generalizing r j with
  | nil => simp at hf
  | cons f fs ih =>
    cases r with
    | nil => simp at hr
    | cons v vs =>
      cases j with
      | zero => rfl
      | succ j =>
        simp only [List.zipWith_cons_cons, List.getD_cons_succ]
        exact ih vs j (by simpa using hf) (by simpa using hr)

theorem meanOf_eq_none_iff (vs : List Value) :
    meanOf vs = none ↔ nonMissingNums vs = [] := by
  simp only [meanOf]
  by_cases h : (nonMissingNums vs).length = 0
  · simp [h, List.length_eq_zero.1 h]
  · rw [if_neg h]
    constructor
    · intro hc; exact Option.noConfusion hc
    · intro hc; exact absurd (by simp [hc]) h

theorem medianOf_eq_none_iff (vs : List Value) :
    medianOf vs = none ↔ nonMissingNums vs = [] := by
  simp only [medianOf, List.length_mergeSort]
  by_cases h : (nonMissingNums vs).length = 0
  · simp [h, List.length_eq_zero.1 h]
  · rw [if_neg h]
    constructor
    · intro hc
      split at hc <;> exact Option.noConfusion hc
    · intro hc
      exact absurd (by simp [hc]) h

theorem fillValS_eq_none_iff (S : FillStrat) (vs : List Value) :
    fillValS S vs = none ↔ (S ≠ FillStrat.zero ∧ nonMissingNums vs = []) := by
  cases S with
  | mean => simpa [fillValS] using meanOf_eq_none_iff vs
  | median => simpa [fillValS] using medianOf_eq_none_iff vs
  | zero => simp [fillValS]

theorem colOf_applyFill (S : FillStrat) (t : Table) (hwf : t.WF) (j : Nat)
    (hj : j < t.header.length) :
    colOf (applyFill S t) j =
      (colOf t j).map (fillCell ((fillVals S t).getD j none)) := by
  unfold colOf applyFill
  simp only [List.map_map]
  refine List.map_congr_left ?_
  intro r hr
  have hlen : r.length = t.header.length := hwf.2 r hr
  show (List.zipWith fillCell (fillVals S t) r).getD j Value.na =
    fillCell ((fillVals S t).getD j none) (r.getD j Value.na)
  exact getD_zipWith_fillCell _ _ _ (by simpa [length_fillVals] using hj) (by omega)

theorem colOf_applyFill_of_none (S : FillStrat) (t : Table) (hwf : t.WF)
    (j : Nat) (hj : j < t.header.length)
    (h : (fillVals S t).getD j none = none) :
    colOf (applyFill S t) j = colOf t j := by
  rw [colOf_applyFill S t hwf j hj, h]
  calc (colOf t j).map (fillCell none)
      = (colOf t j).map id := List.map_congr_left (fun v _ => fillCell_none v)
    _ = colOf t j := List.map_id _

theorem fillVals_applyFill_none (S : FillStrat) (t : Table) (hwf : t.WF)
    (j : Nat) (hj : j < t.header.length)
    (h : (fillVals S t).getD j none = none) :
    (fillVals S (applyFill S t)).getD j none = none := by
  rw [fillVals_getD S (applyFill S t) j hj]
  show (if t.numericMask.getD j false then
      fillValS S (colOf (applyFill S t) j) else none) = none
  by_cases hm : t.numericMask.getD j false
  · rw [if_pos hm]
    rw [colOf_applyFill_of_none S t hwf j hj h]
    rw [fillVals_getD S t j hj, if_pos hm] at h
    exact h
  · rw [if_neg hm]

theorem zipWith_fillCell_twice :
    ∀ (fvs fvs' : List (Option ℚ)) (r : List Value),
      fvs'.length = fvs.length →
      (∀ j, j < fvs.length → fvs.getD j none = none → fvs'.getD j none = none) →
      List.zipWith fillCell fvs' (List.zipWith fillCell fvs r) =
        List.zipWith fillCell fvs r
  | [], fvs', r, hlen, _ => by
      have hnil : fvs' = [] := List.length_eq_zero.1 (by simpa using hlen)
      simp [hnil]
  | f :: fs, fvs', [], hlen, h => by simp
  | f :: fs, fvs', v :: vs, hlen, h => by
      cases fvs' with
      | nil => simp at hlen
      | cons f' fs' =>
        simp only [List.zipWith_cons_cons]
        congr 1
        · cases v with
          | num q => rfl
          | str s => rfl
          | na =>
            cases f with
            | some q => exact fillCell_some_fillCell f' q Value.na
            | none =>
              have h0 : f' = none := by simpa using h 0 (by simp) (by simp)
              subst h0; rfl
        · refine zipWith_fillCell_twice fs fs' vs (by simpa using hlen) ?_
          intro j hjf hjn
          have := h (j + 1) (by simpa using Nat.succ_lt_succ hjf) (by simpa using hjn)
          simpa using this

theorem applyFill_idem (S : FillStrat) (t : Table) (hwf : t.WF) :
    applyFill S (applyFill S t) = applyFill S t := by
  have hlen : (fillVals S (applyFill S t)).length = (fillVals S t).length := by
    rw [length_fillVals, length_fillVals]; rfl
  have hkey : ∀ j, j < (fillVals S t).length →
      (fillVals S t).getD j none = none →
      (fillVals S (applyFill S t)).getD j none = none := by
    intro j hj h
    exact fillVals_applyFill_none S t hwf j (by simpa [length_fillVals] using hj) h
  have hrows :
      ((applyFill S t).rows.map fun r =>
        List.zipWith fillCell (fillVals S (applyFill S t)) r) = (applyFill S t).rows := by
    refine (List.map_congr_left ?_).trans (List.map_id _)
    intro r' hr'
    obtain ⟨r, _, rfl⟩ := List.mem_map.1 hr'
    exact zipWith_fillCell_twice (fillVals S t) (fillVals S (applyFill S t)) r hlen hkey
  show { applyFill S t with
      rows := (applyFill S t).rows.map fun r =>
        List.zipWith fillCell (fillVals S (applyFill S t)) r } = applyFill S t
  rw [hrows]

theorem applyFill_no_missing (S : FillStrat) (t : Table) (hwf : t.WF)
    (j : Nat) (hj : j < t.header.length) (hm : t.numericMask.getD j false = true)
    (hne : nonMissingNums (colOf t j) ≠ [] ∨ S = FillStrat.zero) :
    ∀ v ∈ colOf (applyFill S t) j, v ≠ Value.na := by
  have hfv : ∃ q, (fillVals S t).getD j none = some q := by
    rw [fillVals_getD S t j hj, if_pos hm]
    cases hq : fillValS S (colOf t j) with
    | some q => exact ⟨q, rfl⟩
    | none =>
      have hni := (fillValS_eq_none_iff S _).1 hq
      rcases hne with hne | rfl
      · exact absurd hni.2 hne
      · exact absurd rfl hni.1
  obtain ⟨q, hq⟩ := hfv
  rw [colOf_applyFill S t hwf j hj, hq]
  intro v hv
  obtain ⟨w, _, rfl⟩ := List.mem_map.1 hv
  exact fillCell_ne_na q w

theorem applyFill_all_missing_noop (S : FillStrat) (t : Table) (hwf : t.WF)
    (j : Nat) (hj : j < t.header.length)
    (hS : S ≠ FillStrat.zero) (hall : nonMissingNums (colOf t j) = []) :
    colOf (applyFill S t) j = colOf t j := by
  apply colOf_applyFill_of_none S t hwf j hj
  rw [fillVals_getD S t j hj]
  by_cases hm : t.numericMask.getD j false
  · rw [if_pos hm, (fillValS_eq_none_iff S (colOf t j)).2 ⟨hS, hall⟩]
  · rw [if_neg hm]

/-! ### Session-state helper lemmas -/

theorem step_raw_df_of_not_upload (s : SessionState) (e : Event)
    (h : e.isUploadEv = false) : (step s e).raw_df = s.raw_df := by
  cases e with
  | upload name parsed => simp [Event.isUploadEv] at h
  | dropDupsClick => cases hdf : s.df <;> simp [step, hdf]
  | fillClick S => cases hdf : s.df <;> simp [step, hdf]
  | resetClick => cases hdf : s.df <;> simp [step, hdf]
  | setVisuals cfg => cases hdf : s.df <;> simp [step, hdf]

theorem step_cleaning_fields (s : SessionState) (e : Event)
    (h : e.isCleaningOp = true) :
    (step s e).raw_df = s.raw_df ∧ (step s e).current_file = s.current_file ∧
      (step s e).visual_config = s.visual_config ∧
      (step s e).df.isSome = s.df.isSome := by
  cases e with
  | upload name parsed => simp [Event.isCleaningOp] at h
  | dropDupsClick => cases hdf : s.df <;> simp [step, hdf]
  | fillClick S => cases hdf : s.df <;> simp [step, hdf]
  | resetClick => simp [Event.isCleaningOp] at h
  | setVisuals cfg => simp [Event.isCleaningOp] at h

theorem runEvents_cleaning_fields (s : SessionState) (evs : List Event)
    (h : ∀ e ∈ evs, e.isCleaningOp = true) :
    (runEvents s evs).raw_df = s.raw_df ∧
      (runEvents s evs).current_file = s.current_file ∧
      (runEvents s evs).visual_config = s.visual_config ∧
      (runEvents s evs).df.isSome = s.df.isSome := by
  induction evs generalizing s with
  | nil => exact ⟨rfl, rfl, rfl, rfl⟩
  | cons e es ih =>
    have he := step_cleaning_fields s e (h e (List.mem_cons_self e es))
    have ihs := ih (step s e) fun x hx => h x (List.mem_cons_of_mem e hx)
    simp only [runEvents, List.foldl_cons] at ihs ⊢
    exact ⟨ihs.1.trans he.1, ihs.2.1.trans he.2.1,
      ihs.2.2.1.trans he.2.2.1, ihs.2.2.2.trans he.2.2.2⟩

theorem step_reset_of_isSome (s : SessionState) (h : s.df.isSome = true) :
    step s Event.resetClick = { s with df := s.raw_df } := by
  cases hdf : s.df with
  | none => rw [hdf] at h; simp at h
  | some t => simp [step, hdf]

/-! ### The claims -/

/-- C1: an upload whose identity differs from the active one and whose
parsing succeeds replaces, in the single transition of the upload
handler, both tables with (copies of) the parsed table, sets the active
identity to the new name and clears the visual configuration: the
successor state is exactly this tuple, so no reachable state pairs the
new tables with a stale visual configuration. -/
theorem load_new_file_replaces_everything (s : SessionState) (name : String)
    (t : Table) (h : s.current_file ≠ some name) :
    handleUpload s name (some t) =
      ({ raw_df := some t, df := some t, current_file := some name,
         visual_config := [] }, some SidebarMsg.loadedOk) ∧
    step s (Event.upload name (some t)) =
      { raw_df := some t, df := some t, current_file := some name,
        visual_config := [] } := by
  constructor <;> simp [handleUpload, step, h]

theorem load_new_file_replaces_everything_witness :
    loadedState.current_file ≠ some "other.csv" ∧
    (handleUpload loadedState "other.csv" (some fillExTable) =
      ({ raw_df := some fillExTable, df := some fillExTable,
         current_file := some "other.csv", visual_config := [] },
       some SidebarMsg.loadedOk) ∧
     step loadedState (Event.upload "other.csv" (some fillExTable)) =
      { raw_df := some fillExTable, df := some fillExTable,
        current_file := some "other.csv", visual_config := [] }) :=
  ⟨by decide,
   load_new_file_replaces_everything loadedState "other.csv" fillExTable
     (by decide)⟩

/-- C2: with a table loaded, the Reset button replaces the working table
with the original table and changes nothing else, in particular not the
visual configuration; with no table loaded the reset interaction leaves
the state unchanged; and after any sequence of cleaning operations the
post-reset working table equals the original table from before them. -/
theorem reset_restores_original (s : SessionState) (evs : List Event)
    (hclean : ∀ e ∈ evs, e.isCleaningOp = true) :
    (s.df.isSome = true →
      step s Event.resetClick = { s with df := s.raw_df }) ∧
    (s.df = none → step s Event.resetClick = s) ∧
    (s.df.isSome = true →
      (step (runEvents s evs) Event.resetClick).df = s.raw_df ∧
      (step (runEvents s evs) Event.resetClick).visual_config =
        s.visual_config) := by
  have hrun := runEvents_cleaning_fields s evs hclean
  refine ⟨fun h => step_reset_of_isSome s h, fun h => by simp [step, h],
    fun h => ?_⟩
  have hsome : (runEvents s evs).df.isSome = true := hrun.2.2.2.trans h
  rw [step_reset_of_isSome _ hsome]
  exact ⟨hrun.1, hrun.2.2.1⟩

theorem reset_restores_original_witness :
    (∀ e ∈ [Event.dropDupsClick, Event.fillClick FillStrat.mean],
      Event.isCleaningOp e = true) ∧
    ((loadedState.df.isSome = true →
       step loadedState Event.resetClick =
         { loadedState with df := loadedState.raw_df }) ∧
     (loadedState.df = none →
       step loadedState Event.resetClick = loadedState) ∧
     (loadedState.df.isSome = true →
       (step (runEvents loadedState
          [Event.dropDupsClick, Event.fillClick FillStrat.mean])
          Event.resetClick).df = loadedState.raw_df ∧
       (step (runEvents loadedState
          [Event.dropDupsClick, Event.fillClick FillStrat.mean])
          Event.resetClick).visual_config = loadedState.visual_config)) :=
  ⟨by decide,
   reset_restores_original loadedState
     [Event.dropDupsClick, Event.fillClick FillStrat.mean] (by decide)⟩

/-- C4: drop-duplicates is idempotent on tables, never increases the row
count, keeps its rows in their original relative order (the result is a
sublist), contains no duplicate row, keeps every row value that occurred
(first occurrences are kept), and removes exactly the rows that duplicate
an earlier row: appending a duplicate of an existing row changes nothing,
appending a fresh row appends it. -/
theorem drop_duplicates_props (t : Table) :
    dropDuplicatesT (dropDuplicatesT t) = dropDuplicatesT t ∧
    (dropDuplicatesT t).rows.length ≤ t.rows.length ∧
    (dropDuplicatesT t).rows.Sublist t.rows ∧
    (dropDuplicatesT t).rows.Nodup ∧
    (∀ x, x ∈ (dropDuplicatesT t).rows ↔ x ∈ t.rows) ∧
    (∀ r, dropDupRows (t.rows ++ [r]) =
      if r ∈ t.rows then dropDupRows t.rows else dropDupRows t.rows ++ [r]) := by
  refine ⟨?_, ?_, ?_, ?_, ?_, ?_⟩
  · simp [dropDuplicatesT, dropDupRows_idem]
  · exact (dropDupGo_sublist [] t.rows).length_le
  · exact dropDupGo_sublist [] t.rows
  · exact dropDupGo_nodup [] t.rows
  · intro x; simpa using mem_dropDupGo [] t.rows x
  · intro r; exact dropDupRows_snoc t.rows r

/-- C5: a CSV upload fails to parse exactly when the UTF-8 attempt fails
with a non-Unicode error or the Latin-1 fallback fails too; an unreadable
spreadsheet arrives as a failure as well; in every such case the handler
reports the sidebar error message and returns the session state — both
tables, identity and visual configuration — unchanged. -/
theorem parse_failure_keeps_state (s : SessionState) (name : String)
    (u l : ParseOutcome) (hname : s.current_file ≠ some name) :
    (parseCSV u l = none ↔
      u = ParseOutcome.otherError ∨
        (u = ParseOutcome.unicodeError ∧ ∀ t, l ≠ ParseOutcome.ok t)) ∧
    (parseCSV u l = none →
      handleUpload s name (parseCSV u l) = (s, some SidebarMsg.loadFailed)) ∧
    handleUpload s name none = (s, some SidebarMsg.loadFailed) := by
  refine ⟨?_, fun h => ?_, ?_⟩
  · cases u <;> cases l <;> simp [parseCSV]
  · rw [h]; simp [handleUpload, hname]
  · simp [handleUpload, hname]

theorem parse_failure_keeps_state_witness :
    loadedState.current_file ≠ some "broken.csv" ∧
    ((parseCSV ParseOutcome.unicodeError ParseOutcome.otherError = none ↔
       ParseOutcome.unicodeError = ParseOutcome.otherError ∨
         (ParseOutcome.unicodeError = ParseOutcome.unicodeError ∧
          ∀ t, ParseOutcome.otherError ≠ ParseOutcome.ok t)) ∧
     (parseCSV ParseOutcome.unicodeError ParseOutcome.otherError = none →
       handleUpload loadedState "broken.csv"
         (parseCSV ParseOutcome.unicodeError ParseOutcome.otherError) =
           (loadedState, some SidebarMsg.loadFailed)) ∧
     handleUpload loadedState "broken.csv" none =
       (loadedState, some SidebarMsg.loadFailed)) :=
  ⟨by decide,
   parse_failure_keeps_state loadedState "broken.csv"
     ParseOutcome.unicodeError ParseOutcome.otherError (by decide)⟩

/-- C6: an upload named like the active file is ignored whatever its
parse outcome would have been: no sidebar message is shown and the
successor state is the prior state — original table, working table,
identity and visual configuration — unchanged, also after cleaning
operations have been applied since the load. -/
theorem same_name_upload_noop (s : SessionState) (name : String)
    (parsed : Option Table) (h : s.current_file = some name) :
    handleUpload s name parsed = (s, none) ∧
    step s (Event.upload name parsed) = s := by
  constructor <;> simp [handleUpload, step, h]

theorem same_name_upload_noop_witness :
    (step loadedState Event.dropDupsClick).current_file = some "data.csv" ∧
    (handleUpload (step loadedState Event.dropDupsClick) "data.csv"
        (some fillExTable) = (step loadedState Event.dropDupsClick, none) ∧
     step (step loadedState Event.dropDupsClick)
        (Event.upload "data.csv" (some fillExTable)) =
          step loadedState Event.dropDupsClick) :=
  ⟨by decide,
   same_name_upload_noop (step loadedState Event.dropDupsClick) "data.csv"
     (some fillExTable) (by decide)⟩

/-- C7: the original table is assigned only by a successful new-file
load, which sets it to the table as parsed; every interaction other than
an upload — both cleaning buttons, reset and visual rebuilds — leaves it
unchanged (the cleaning operations replace only the working table, which
never feeds back into the original), and a failed upload or a same-name
re-upload leaves it unchanged too. -/
theorem original_table_immutable (s : SessionState) (e : Event)
    (name : String) (t : Table) (p : Option Table) :
    (e.isUploadEv = false → (step s e).raw_df = s.raw_df) ∧
    (s.current_file ≠ some name →
      (step s (Event.upload name (some t))).raw_df = some t) ∧
    (step s (Event.upload name none)).raw_df = s.raw_df ∧
    (s.current_file = some name →
      (step s (Event.upload name p)).raw_df = s.raw_df) := by
  refine ⟨step_raw_df_of_not_upload s e, fun h => ?_, ?_, fun h => ?_⟩
  · simp [step, handleUpload, h]
  · by_cases h : s.current_file = some name <;> simp [step, handleUpload, h]
  · simp [step, handleUpload, h]

theorem original_table_immutable_witness :
    Event.isCleaningOp (Event.fillClick FillStrat.median) = true ∧
    Event.isUploadEv (Event.fillClick FillStrat.median) = false ∧
    loadedState.current_file ≠ some "other.csv" ∧
    (step loadedState (Event.fillClick FillStrat.median)).raw_df =
      loadedState.raw_df ∧
    (step loadedState (Event.upload "other.csv" (some fillExTable))).raw_df =
      some fillExTable ∧
    (step loadedState (Event.upload "other.csv" none)).raw_df =
      loadedState.raw_df :=
  ⟨by decide, by decide, by decide,
   (original_table_immutable loadedState (Event.fillClick FillStrat.median)
      "other.csv" fillExTable none).1 (by decide),
   (original_table_immutable loadedState (Event.fillClick FillStrat.median)
      "other.csv" fillExTable none).2.1 (by decide),
   (original_table_immutable loadedState (Event.fillClick FillStrat.median)
      "other.csv" fillExTable none).2.2.1⟩

/-- C10: the duplicate-rows KPI counts the rows that exactly duplicate an
earlier row — the same predicate drop-duplicates removes by, computed
functionally, so it equals the row count minus the deduplicated row
count — and the missing-values KPI counts the missing cells over all
columns; on rows `[A, A, B]` the duplicate count is 1 and on a table with
two missing cells the missing count is 2. -/
theorem kpi_counts_correct (t : Table) :
    duplicatedSum t + (dropDuplicatesT t).rows.length = t.rows.length ∧
    duplicatedSum t = t.rows.length - (dropDuplicatesT t).rows.length ∧
    duplicatedSum ⟨["c"], [true],
      [[Value.num 1], [Value.num 1], [Value.num 2]]⟩ = 1 ∧
    missingSum ⟨["c1", "c2"], [true, true],
      [[Value.na, Value.num 1], [Value.num 2, Value.na]]⟩ = 2 ∧
    missingSum t =
      (t.rows.map (fun r => r.countP (fun v => v = Value.na))).sum := by
  refine ⟨?_, duplicatedSum_eq t, by decide, by decide, rfl⟩
  have h := dupCountGo_add_length [] t.rows
  simpa [duplicatedSum, dropDuplicatesT, dropDupRows] using h

/-- C3: each fill strategy is idempotent on the working table; after one
application every numeric-dtype column that had some non-missing value
(or, under the zero strategy, every numeric-dtype column) contains no
missing value; and a numeric column with no non-missing values is left
entirely unchanged by mean and median fill — an explicit no-op, never a
NaN-poisoned column. -/
theorem fill_strategy_props (S : FillStrat) (t : Table) (hwf : t.WF) :
    applyFill S (applyFill S t) = applyFill S t ∧
    (∀ j, j < t.header.length → t.numericMask.getD j false = true →
      (nonMissingNums (colOf t j) ≠ [] ∨ S = FillStrat.zero) →
      ∀ v ∈ colOf (applyFill S t) j, v ≠ Value.na) ∧
    (∀ j, j < t.header.length → t.numericMask.getD j false = true →
      S ≠ FillStrat.zero → nonMissingNums (colOf t j) = [] →
      colOf (applyFill S t) j = colOf t j) :=
  ⟨applyFill_idem S t hwf,
   fun j hj hm hne => applyFill_no_missing S t hwf j hj hm hne,
   fun j hj _ hS hall => applyFill_all_missing_noop S t hwf j hj hS hall⟩

theorem fill_strategy_props_witness :
    fillExTable.WF ∧
    (applyFill FillStrat.mean (applyFill FillStrat.mean fillExTable) =
        applyFill FillStrat.mean fillExTable ∧
      (∀ j, j < fillExTable.header.length →
        fillExTable.numericMask.getD j false = true →
        (nonMissingNums (colOf fillExTable j) ≠ [] ∨
          FillStrat.mean = FillStrat.zero) →
        ∀ v ∈ colOf (applyFill FillStrat.mean fillExTable) j,
          v ≠ Value.na) ∧
      (∀ j, j < fillExTable.header.length →
        fillExTable.numericMask.getD j false = true →
        FillStrat.mean ≠ FillStrat.zero →
        nonMissingNums (colOf fillExTable j) = [] →
        colOf (applyFill FillStrat.mean fillExTable) j =
          colOf fillExTable j)) :=
  ⟨by decide, fill_strategy_props FillStrat.mean fillExTable (by decide)⟩

/-- C8: requesting a Histogram, Line, Scatter or Boxplot against a
column that is not of numeric dtype raises nothing and computes no
numeric data: the Visualize page writes its "select a numeric column"
placeholder note for that slot and the Final Report renders the bare
empty figure for it, while the report loop still yields one outcome per
configured chart, so the remaining charts and the rest of the page
proceed. -/
theorem nonnumeric_chart_placeholder (t : Table) (k : ChartType)
    (column : String) (cfg : List (ChartType × String))
    (hk : k = ChartType.histogram ∨ k = ChartType.line ∨
      k = ChartType.scatter ∨ k = ChartType.boxplot)
    (hcol : column ∉ numericColNames t) :
    previewDispatch t k column = PreviewOutcome.placeholderMsg ∧
    reportDispatch t k column = ReportOutcome.emptyFig ∧
    (renderReportCharts t cfg).length = cfg.length := by
  refine ⟨?_, ?_, by simp [renderReportCharts]⟩ <;>
    rcases hk with rfl | rfl | rfl | rfl <;>
      simp [previewDispatch, reportDispatch, hcol]

theorem nonnumeric_chart_placeholder_witness :
    (ChartType.histogram = ChartType.histogram ∨
      ChartType.histogram = ChartType.line ∨
      ChartType.histogram = ChartType.scatter ∨
      ChartType.histogram = ChartType.boxplot) ∧
    "y" ∉ numericColNames exTable ∧
    (previewDispatch exTable ChartType.histogram "y" =
        PreviewOutcome.placeholderMsg ∧
      reportDispatch exTable ChartType.histogram "y" =
        ReportOutcome.emptyFig ∧
      (renderReportCharts exTable [(ChartType.histogram, "y")]).length =
        [(ChartType.histogram, "y")].length) :=
  ⟨Or.inl rfl, by decide,
   nonnumeric_chart_placeholder exTable ChartType.histogram "y"
     [(ChartType.histogram, "y")] (Or.inl rfl) (by decide)⟩

/-! ### CSV structure lemmas -/

theorem flatten_intersperse_cons {α : Type} (sep x : List α)
    (xs : List (List α)) :
    (List.intersperse sep (x :: xs)).flatten =
      x ++ (xs.map fun a => sep ++ a).flatten := by
  induction xs generalizing x with
  | nil => simp
  | cons b bs ih =>
    rw [List.intersperse_cons_cons]
    simp only [List.flatten_cons, List.map_cons]
    rw [ih b]
    simp [List.append_assoc]

theorem data_intercalateGo (acc sep : String) (ls : List String) :
    (String.intercalate.go acc sep ls).data =
      acc.data ++ (ls.map fun a => sep.data ++ a.data).flatten := by
  induction ls generalizing acc with
  | nil => simp [String.intercalate.go]
  | cons a as ih =>
    rw [String.intercalate.go, ih]
    simp [List.append_assoc]

theorem data_intercalate (sep : String) (ls : List String) :
    (String.intercalate sep ls).data =
      List.intercalate sep.data (ls.map String.data) := by
  cases ls with
  | nil => rfl
  | cons a as =>
    show (String.intercalate.go a sep as).data = _
    rw [data_intercalateGo, List.intercalate, List.map_cons,
      flatten_intersperse_cons]
    simp only [List.map_map]
    rfl

theorem intercalate_snoc_nil {α : Type} (sep x : List α)
    (xs : List (List α)) :
    List.intercalate sep ((x :: xs) ++ [[]]) =
      List.intercalate sep (x :: xs) ++ sep := by
  simp only [List.intercalate]
  induction xs generalizing x with
  | nil => simp [List.intersperse]
  | cons b bs ih =>
    have ihb := ih b
    rw [List.cons_append] at ihb
    show (List.intersperse sep (x :: b :: (bs ++ [[]]))).flatten =
      (List.intersperse sep (x :: b :: bs)).flatten ++ sep
    rw [List.intersperse_cons_cons, List.intersperse_cons_cons,
      List.flatten_cons, List.flatten_cons, List.flatten_cons,
      List.flatten_cons, ihb]
    simp [List.append_assoc]

theorem quoteField_of_plain (s : String) (h : needsQuoting s = false) :
    quoteField s = s := by
  simp [quoteField, h]

theorem comma_not_mem_of_plain (s : String) (h : needsQuoting s = false) :
    (',' : Char) ∉ s.data := by
  intro hc
  rw [needsQuoting, List.any_eq_false] at h
  have := h _ hc
  simp at this

theorem newline_not_mem_of_plain (s : String) (h : needsQuoting s = false) :
    ('\n' : Char) ∉ s.data := by
  intro hc
  rw [needsQuoting, List.any_eq_false] at h
  have := h _ hc
  simp at this

theorem csvLine_data_of_plain (fields : List String)
    (h : ∀ f ∈ fields, needsQuoting f = false) :
    (csvLine fields).data =
      List.intercalate [','] (fields.map String.data) := by
  unfold csvLine
  rw [List.map_congr_left (fun f hf => quoteField_of_plain f (h f hf)),
    List.map_id', data_intercalate]

theorem mem_intercalate_imp {α : Type} (y : α) (sep : List α)
    (ls : List (List α)) (h : y ∈ List.intercalate sep ls) :
    y ∈ sep ∨ ∃ l ∈ ls, y ∈ l := by
  cases ls with
  | nil => simp [List.intercalate] at h
  | cons x xs =>
    rw [List.intercalate, flatten_intersperse_cons] at h
    rcases List.mem_append.1 h with hx | hx
    · exact Or.inr ⟨x, List.mem_cons_self x xs, hx⟩
    · obtain ⟨l, hl, hyl⟩ := List.mem_flatten.1 hx
      obtain ⟨a, ha, rfl⟩ := List.mem_map.1 hl
      rcases List.mem_append.1 hyl with h1 | h1
      · exact Or.inl h1
      · exact Or.inr ⟨a, List.mem_cons_of_mem x ha, h1⟩

theorem newline_not_mem_csvLine (fields : List String)
    (h : ∀ f ∈ fields, needsQuoting f = false) :
    ('\n' : Char) ∉ (csvLine fields).data := by
  intro hc
  rw [csvLine_data_of_plain fields h] at hc
  rcases mem_intercalate_imp _ _ _ hc with hs | ⟨l, hl, hyl⟩
  · simp at hs
  · obtain ⟨f, hf, rfl⟩ := List.mem_map.1 hl
    exact newline_not_mem_of_plain f (h f hf) hyl

/-- C9 (amended): the download is the current working table in full —
`convert_df_to_csv` is the UTF-8 encoding of `to_csv`, whose text splits
at line feeds into exactly the header record followed by one record per
row (plus the trailing terminator), and each record splits at commas into
exactly that row's rendered fields (stated for quote-free fields, where
the CSV writer inserts no quoting) — and the offered file name is the
fixed prefix "cleaned_" plus the source identity truncated at its FIRST
dot plus ".csv", which for an identity containing a single dot equals the
spec's extension-stripped identity. -/
theorem export_is_working_table (t : Table) (name : String)
    (hwf : t.WF) (hh : t.header ≠ [])
    (hqh : ∀ f ∈ t.header, needsQuoting f = false)
    (hqr : ∀ r ∈ t.rows, ∀ v ∈ r, needsQuoting (cellStr v) = false)
    (hdots : (splitOnDot name).length = 2) :
    convert_df_to_csv t = (to_csv t).toUTF8.toList ∧
    (csvRecords t).length = t.rows.length + 1 ∧
    (to_csv t).data.splitOn '\n' = (csvRecords t).map String.data ++ [[]] ∧
    (∀ r ∈ t.rows,
      (csvLine (r.map cellStr)).data.splitOn ',' =
        (r.map cellStr).map String.data) ∧
    downloadFileName name = specDownloadFileName name := by
  have hrecplain : ∀ rec ∈ csvRecords t, ('\n' : Char) ∉ rec.data := by
    intro rec hrec
    rcases List.mem_cons.1 hrec with rfl | hrec
    · exact newline_not_mem_csvLine t.header hqh
    · obtain ⟨r, hr, rfl⟩ := List.mem_map.1 hrec
      refine newline_not_mem_csvLine (r.map cellStr) ?_
      intro f hf
      obtain ⟨v, hv, rfl⟩ := List.mem_map.1 hf
      exact hqr r hr v hv
  refine ⟨rfl, by simp [csvRecords], ?_, ?_, ?_⟩
  · have hcons : (csvRecords t).map String.data =
        (csvLine t.header).data ::
          ((t.rows.map fun r => csvLine (r.map cellStr)).map String.data) :=
      rfl
    have hdata : (to_csv t).data =
        List.intercalate [Char.ofNat 10]
          ((csvRecords t).map String.data ++ [[]]) := by
      show (String.intercalate "\n" (csvRecords t) ++ "\n").data = _
      rw [String.data_append, data_intercalate, hcons,
        intercalate_snoc_nil]
    rw [hdata]
    refine List.splitOn_intercalate _ _ ?_ (by simp)
    intro l hl
    rcases List.mem_append.1 hl with hl | hl
    · obtain ⟨rec, hrec, rfl⟩ := List.mem_map.1 hl
      exact hrecplain rec hrec
    · simp only [List.mem_singleton] at hl
      subst hl
      simp
  · intro r hr
    have hfields : ∀ f ∈ r.map cellStr, needsQuoting f = false := by
      intro f hf
      obtain ⟨v, hv, rfl⟩ := List.mem_map.1 hf
      exact hqr r hr v hv
    rw [csvLine_data_of_plain _ hfields]
    refine List.splitOn_intercalate _ _ ?_ ?_
    · intro l hl
      obtain ⟨f, hf, rfl⟩ := List.mem_map.1 hl
      exact comma_not_mem_of_plain f (hfields f hf)
    · have hr0 : r.length = t.header.length := hwf.2 r hr
      simp only [ne_eq, List.map_eq_nil_iff]
      intro hrnil
      rw [hrnil] at hr0
      exact hh (List.length_eq_zero.1 hr0.symm)
  · obtain ⟨a, b, hab⟩ := List.length_eq_two.1 hdots
    have hone : String.intercalate "." [a] = a := rfl
    simp [downloadFileName, specDownloadFileName, stripLastExt, hab, hone]

theorem export_is_working_table_witness :
    exTable.WF ∧ exTable.header ≠ [] ∧
    (∀ f ∈ exTable.header, needsQuoting f = false) ∧
    (∀ r ∈ exTable.rows, ∀ v ∈ r, needsQuoting (cellStr v) = false) ∧
    (splitOnDot "data.csv").length = 2 ∧
    (convert_df_to_csv exTable = (to_csv exTable).toUTF8.toList ∧
     (csvRecords exTable).length = exTable.rows.length + 1 ∧
     (to_csv exTable).data.splitOn '\n' =
       (csvRecords exTable).map String.data ++ [[]] ∧
     (∀ r ∈ exTable.rows,
       (csvLine (r.map cellStr)).data.splitOn ',' =
         (r.map cellStr).map String.data) ∧
     downloadFileName "data.csv" = specDownloadFileName "data.csv") :=
  ⟨by decide, by decide, by decide, by decide, by decide,
   export_is_working_table exTable "data.csv" (by decide) (by decide)
     (by decide) (by decide) (by decide)⟩

/-- C9 counterexample: for the source identity "data.v2.csv" the code
offers "cleaned_data.csv" — the identity truncated at its FIRST dot —
while the claim's "extension stripped" identity would give
"cleaned_data.v2.csv"; the two names differ. -/
theorem download_name_not_extension_stripped :
    downloadFileName "data.v2.csv" = "cleaned_data.csv" ∧
    specDownloadFileName "data.v2.csv" = "cleaned_data.v2.csv" ∧
    downloadFileName "data.v2.csv" ≠ specDownloadFileName "data.v2.csv" := by
  refine ⟨by decide, by decide, by decide⟩
